/-
Verification of the arena allocator (alloc.h).

Shallow embedding of the arena bump allocator of `src/alloc.h` (with the
stand-alone variant `src/allocators/arena.h`, whose arena logic is the same
code).  Blocks are identified by their index in the chain read from
`arena->start`; this is a stable identity because the chain is append-only
(blocks are never freed or reordered before teardown).  Pointers returned by
`alloc` are modelled as a pair (block index, byte offset inside the block).

Machine integers (`size_t`) are modelled as `Nat`; none of the verified
operations can overflow 64 bits on the inputs the theorems quantify over.
-/
import Mathlib

namespace AllocH

/-- Constant `MAX_ALIGN = alignof(max_align_t)`: 16 on the x86-64 System V
ABI targeted by the repository. -/
def MAX_ALIGN : Nat := 16

/-- Macro `round_up_to_multiple(_n, _m)` from `src/alloc.h`:
`_a = _n + (_m - 1); _a - (_a % _m)`. -/
def round_up_to_multiple (n m : Nat) : Nat :=
  (n + (m - 1)) - ((n + (m - 1)) % m)

/-- Constant `ALLOC_ARENA_BLOCKSIZE_MIN` (default `512u`). -/
def BLOCKSIZE_MIN : Nat := 512

/-- Constant `ALLOC_ARENA_BLOCKSIZE_MAX` (default `1u << 20`). -/
def BLOCKSIZE_MAX : Nat := 1 <<< 20

/-- Struct `arena_block`: `size` is the capacity of the `bytes[]` buffer,
`used` the bump cursor.  The `next` pointer is represented by list order. -/
structure ArenaBlock where
  size : Nat
  used : Nat
deriving DecidableEq

/-- Default block, used only as the out-of-range fallback of `List.getD`. -/
def d0 : ArenaBlock := { size := 0, used := 0 }

/-- Struct `arena`: `blocks` is the chain read from `start`; `endIdx` is the
index the `end` pointer refers to (`none` = `NULL`); `block_seq` drives the
growth schedule. -/
structure Arena where
  blocks : List ArenaBlock
  endIdx : Option Nat
  block_seq : Nat
deriving DecidableEq

/-- Struct `arena_marker`: the block the `block` pointer refers to, as a chain
index (`none` = `NULL`), plus the saved offset. -/
structure ArenaMarker where
  block : Option Nat
  offset : Nat
deriving DecidableEq

/-- Struct `arena_temp` (the scratch token).  The `arena` pointer of the C
struct is implicit: state is passed explicitly to `arena_scratch_deinit`. -/
structure ArenaTemp where
  marker : ArenaMarker
deriving DecidableEq

/-- Fresh arena as produced by `allocator_arena_init` / `arena_init`:
`start = end = NULL`, `block_seq = 0`. -/
def arena_init : Arena := { blocks := [], endIdx := none, block_seq := 0 }

/-- The first-fit scan and in-place bump of `allocator_arena_alloc`
(`while (block) { if (size + block->used <= block->size) break; ... }`
followed by `ptr = &block->bytes[block->used]; block->used += size;`).
Returns the updated chain, the index of the receiving block, and the offset
of the returned pointer inside it; `none` when no block fits. -/
def allocScan (size : Nat) : List ArenaBlock → Option (List ArenaBlock × Nat × Nat)
  | [] => none
  | b :: bs =>
    if size + b.used ≤ b.size then
      some ({ size := b.size, used := b.used + size } :: bs, 0, b.used)
    else
      match allocScan size bs with
      | some (bs2, i, off) => some (b :: bs2, i + 1, off)
      | none => none

/-- Function `arena_alloc` of `src/allocators/arena.h`, identical to the arena
manipulation inside `allocator_arena_alloc` of `src/alloc.h` (lines 205-268):
round the size up to `MAX_ALIGN`, first-fit scan the chain; if no block fits,
compute `blocksize = BLOCKSIZE_MIN << (block_seq >> 1)`, advance `block_seq`
when `blocksize < BLOCKSIZE_MAX`, allocate a block of `size` bytes when
`size > blocksize` (oversized) else of `blocksize` bytes, append it and point
`end` at it.  The returned pointer is (block index, offset). -/
def arena_alloc (a : Arena) (sz : Nat) : Arena × Nat × Nat :=
  let size := round_up_to_multiple sz MAX_ALIGN
  match allocScan size a.blocks with
  | some (bs, i, off) => ({ a with blocks := bs }, i, off)
  | none =>
    let blocksize := BLOCKSIZE_MIN <<< (a.block_seq >>> 1)
    let seq2 := if blocksize < BLOCKSIZE_MAX then a.block_seq + 1 else a.block_seq
    let cap := if size > blocksize then size else blocksize
    ({ blocks := a.blocks ++ [{ size := cap, used := size }],
       endIdx := some a.blocks.length,
       block_seq := seq2 },
     a.blocks.length, 0)

/-- Clearing a block's cursor, as done by `arena_reset` and by the tail loop
of `arena_rewind` (`b->used = 0`). -/
def zeroUsed (b : ArenaBlock) : ArenaBlock := { b with used := 0 }

/-- Function `arena_reset`: `b->used = 0` for every block in the chain;
`arena->end = arena->start` (so `end` is `NULL` exactly when the chain is
empty, else the first block). -/
def arena_reset (a : Arena) : Arena :=
  { a with
    blocks := a.blocks.map zeroUsed,
    endIdx := if a.blocks.isEmpty then none else some 0 }

/-- Function `arena_snapshot`: capture `(end, end->used)`, or `(NULL, 0)` when
the arena has no blocks. -/
def arena_snapshot (a : Arena) : ArenaMarker :=
  match a.endIdx with
  | none => { block := none, offset := 0 }
  | some i => { block := some i, offset := (a.blocks.getD i d0).used }

/-- The pointer walk of `arena_rewind` for a non-NULL marker block: walk to
block `i`, set `used = off` there, and set `used = 0` on every block after it.
A marker index past the end of the chain walks off the chain and changes
nothing (in C this would be a dangling pointer, i.e. a contract violation). -/
def rewindBlocks (off : Nat) : Nat → List ArenaBlock → List ArenaBlock
  | _, [] => []
  | 0, b :: bs => { b with used := off } :: bs.map zeroUsed
  | i + 1, b :: bs => b :: rewindBlocks off i bs

/-- Function `arena_rewind`: `NULL` marker block means full reset; otherwise
`m.block->used = m.offset`, zero every block after `m.block`, and point the
arena's `end` at `m.block`. -/
def arena_rewind (a : Arena) (m : ArenaMarker) : Arena :=
  match m.block with
  | none => arena_reset a
  | some i => { a with blocks := rewindBlocks m.offset i a.blocks, endIdx := some i }

/-- Function `arena_scratch_init`: snapshot bundled into a token. -/
def arena_scratch_init (a : Arena) : ArenaTemp := { marker := arena_snapshot a }

/-- Function `arena_scratch_deinit`: rewind the arena to the token's marker. -/
def arena_scratch_deinit (t : ArenaTemp) (a : Arena) : Arena :=
  arena_rewind a t.marker

/-- Function `arena_free` of `src/allocators/arena.h`: a no-op. -/
def arena_free (a : Arena) : Arena := a

/-- Function `arena_realloc` of `src/allocators/arena.h`: a no-op that
returns `p` unchanged. -/
def arena_realloc (a : Arena) (p : Nat) : Arena × Nat := (a, p)

/-- Run a sequence of allocations, collecting the returned pointers as
(block index, offset) pairs. -/
def runAllocs : Arena → List Nat → Arena × List (Nat × Nat)
  | a, [] => (a, [])
  | a, sz :: rest =>
    let r := arena_alloc a sz
    let r2 := runAllocs r.1 rest
    (r2.1, r.2 :: r2.2)

/-- Struct `allocator_stats`. -/
structure AllocatorStats where
  used : Nat
  reserved : Nat
  peak : Nat
deriving DecidableEq

/-- Struct `allocator` (arena kind): the tag, the function pointers and the
union collapse to the embedded arena plus the stats. -/
structure Allocator where
  arena : Arena
  stats : AllocatorStats
deriving DecidableEq

/-- Value `sizeof(arena_block_t)` on x86-64 LP64: one pointer and two
`size_t` (the flexible `bytes[]` member contributes nothing). -/
def sizeof_arena_block_t : Nat := 24

/-- Function `allocator_arena_init`: zeroed stats, empty arena. -/
def allocator_arena_init : Allocator :=
  { arena := arena_init,
    stats := { used := 0, reserved := 0, peak := 0 } }

/-- Function `allocator_arena_alloc` of `src/alloc.h`: the arena manipulation
of `arena_alloc`, plus the stats updates — `reserved += sizeof(arena_block_t)
+ block->size` exactly when a new block was pushed (the chain grew),
`used += size` (the rounded size), `peak = max(peak, used)`. -/
def allocator_arena_alloc (al : Allocator) (sz : Nat) : Allocator × Nat × Nat :=
  let size := round_up_to_multiple sz MAX_ALIGN
  let r := arena_alloc al.arena sz
  let reserved2 :=
    if r.1.blocks.length = al.arena.blocks.length then al.stats.reserved
    else al.stats.reserved + (sizeof_arena_block_t + (r.1.blocks.getD r.2.1 d0).size)
  let used2 := al.stats.used + size
  ({ arena := r.1,
     stats := { used := used2, reserved := reserved2, peak := max al.stats.peak used2 } },
   r.2.1, r.2.2)

/-- Function `allocator_arena_free`: a no-op. -/
def allocator_arena_free (al : Allocator) (p : Nat) : Allocator := al

/-- Function `allocator_arena_realloc` of `src/alloc.h` (lines 275-278).  The
C body is only the type assertion and a `NO-OP` comment: there is no `return`
statement, so the function falls off the end of a function returning `void*`
and yields no defined value.  The undefined return is modelled as `none`; the
allocator state is untouched. -/
def allocator_arena_realloc (al : Allocator) (p : Nat) : Allocator × Option Nat :=
  (al, none)

/-- The facade-level reset (spec §6 `reset(handle)`): the caller invokes
`arena_reset(&a->arena)`.  `arena_reset` receives only the `arena_t`, so the
facade's stats cannot be and are not updated. -/
def allocator_reset (al : Allocator) : Allocator :=
  { al with arena := arena_reset al.arena }

/-- Reachable states of an arena together with the set of markers captured
from it: start from `arena_init`, then any interleaving of allocations,
snapshots, resets, and rewinds with a previously captured marker.  Scratch
enter/exit is literally `arena_snapshot` plus `arena_rewind` with the
captured marker, so scratch scopes are covered. -/
inductive Reach : Arena → List ArenaMarker → Prop
  | init : Reach arena_init []
  | alloc (a : Arena) (ms : List ArenaMarker) (sz : Nat) :
      Reach a ms → Reach (arena_alloc a sz).1 ms
  | snap (a : Arena) (ms : List ArenaMarker) :
      Reach a ms → Reach a (arena_snapshot a :: ms)
  | reset (a : Arena) (ms : List ArenaMarker) :
      Reach a ms → Reach (arena_reset a) ms
  | rewind (a : Arena) (ms : List ArenaMarker) (m : ArenaMarker) :
      m ∈ ms → Reach a ms → Reach (arena_rewind a m) ms

/-- A packed arena: `end` refers to the last block of the chain (or is `NULL`
on an empty chain) and every block strictly before the last is exactly full.
This is the configuration in which the first-fit scan cannot place a non-empty
allocation into a block before the tail, so snapshot/rewind brackets restore
the arena exactly. -/
def Packed (a : Arena) : Prop :=
  (a.blocks = [] → a.endIdx = none) ∧
  (a.blocks ≠ [] → a.endIdx = some (a.blocks.length - 1)) ∧
  ∀ j < a.blocks.length - 1,
    (a.blocks.getD j d0).used = (a.blocks.getD j d0).size

instance (a : Arena) : Decidable (Packed a) := by
  unfold Packed
  infer_instance

/-- Invariant of a single block: the cursor never passes the capacity and
always sits at an aligned offset. -/
def GoodBlock (b : ArenaBlock) : Prop :=
  b.used ≤ b.size ∧ MAX_ALIGN ∣ b.used

/-- Invariant of a captured marker relative to the arena it was captured
from: the marker's block still exists, its saved offset fits that block's
fixed capacity, and the offset is aligned. -/
def GoodMarker (a : Arena) (m : ArenaMarker) : Prop :=
  match m.block with
  | none => m.offset = 0
  | some i => i < a.blocks.length ∧ m.offset ≤ (a.blocks.getD i d0).size ∧
      MAX_ALIGN ∣ m.offset

/-- Invariant of an arena state: every block is good, the `end` pointer is in
range, and the growth counter never passes 22 (the step at which the schedule
first reaches `BLOCKSIZE_MAX` and stops advancing). -/
def GoodArena (a : Arena) : Prop :=
  (∀ b ∈ a.blocks, GoodBlock b) ∧
  (∀ i, a.endIdx = some i → i < a.blocks.length) ∧
  a.block_seq ≤ 22

/-! ### Concrete scenario states used by counterexamples and witnesses -/

/-- Arena reached from a fresh arena by allocating 16 then 512 bytes: the
first block keeps 496 spare bytes while the second (the tail) is full.
Concretely `blocks = [(512, 16), (512, 512)]`, `end = 1`, `block_seq = 2`. -/
def caHoley : Arena := (runAllocs arena_init [16, 512]).1

/-- The same holey arena written out as a literal, used by the second
scenario (reached by the same two allocations). -/
def caHoley2 : Arena :=
  { blocks := [{ size := 512, used := 16 }, { size := 512, used := 512 }],
    endIdx := some 1, block_seq := 2 }

/-- Facade state after allocating 512 bytes from a fresh arena allocator:
one block of capacity 512, `reserved = 536`, `used = 512`. -/
def c9s1 : Allocator := (allocator_arena_alloc allocator_arena_init 512).1

/-- The previous state after a facade-level reset: cursors cleared, stats
untouched. -/
def c9s2 : Allocator := allocator_reset c9s1

/-- The reset state after allocating 512 bytes again: the allocation lands in
the recycled block, so `reserved` stays 536 while `used` reaches 1024. -/
def c9s3 : Allocator := (allocator_arena_alloc c9s2 512).1

/-- Facade state after the first allocation (100 bytes) of the concrete
growth scenario. -/
def c7r1 : Allocator × Nat × Nat := allocator_arena_alloc allocator_arena_init 100

/-- After the second allocation (300 bytes). -/
def c7r2 : Allocator × Nat × Nat := allocator_arena_alloc c7r1.1 300

/-- After the third allocation (300 bytes). -/
def c7r3 : Allocator × Nat × Nat := allocator_arena_alloc c7r2.1 300

/-- A two-block arena with a partially used first block and a full tail,
used to exercise the rewind semantics at concrete inputs. -/
def c3wa : Arena :=
  { blocks := [{ size := 512, used := 96 }, { size := 512, used := 512 }],
    endIdx := some 1, block_seq := 2 }

/-- A packed one-block arena (fresh arena after one 100-byte allocation),
used to exercise the scratch-scope and round-trip theorems at concrete
inputs. -/
def cPacked1 : Arena := (runAllocs arena_init [100]).1

/-- The same packed one-block arena as a literal, for the second scenario. -/
def cPacked2 : Arena :=
  { blocks := [{ size := 512, used := 112 }], endIdx := some 0, block_seq := 1 }

/-! ### Arithmetic facts about the alignment rounding -/

lemma round_up_dvd (n : Nat) : MAX_ALIGN ∣ round_up_to_multiple n MAX_ALIGN := by
  refine ⟨(n + 15) / 16, ?_⟩
  have h := Nat.div_add_mod (n + 15) 16
  simp only [round_up_to_multiple, MAX_ALIGN]
  omega

/-! ### Properties of the first-fit scan -/

lemma allocScan_length (s : Nat) : ∀ (l l2 : List ArenaBlock) (i off : Nat),
    allocScan s l = some (l2, i, off) → l2.length = l.length := by
  intro l
  induction l with
  | nil => intro l2 i off h; simp [allocScan] at h
  | cons b bs ih =>
    intro l2 i off h
    rw [allocScan] at h
    split at h
    · cases h; simp
    · split at h
      · rename_i bs2 i2 off2 heq
        cases h
        simpa using ih _ _ _ heq
      · cases h

lemma allocScan_sizes (s : Nat) : ∀ (l l2 : List ArenaBlock) (i off : Nat),
    allocScan s l = some (l2, i, off) →
    ∀ j, (l2.getD j d0).size = (l.getD j d0).size := by
  intro l
  induction l with
  | nil => intro l2 i off h; simp [allocScan] at h
  | cons b bs ih =>
    intro l2 i off h j
    rw [allocScan] at h
    split at h
    · cases h
      cases j <;> simp
    · split at h
      · rename_i bs2 i2 off2 heq
        cases h
        cases j with
        | zero => simp
        | succ j => simpa using ih _ _ _ heq j
      · cases h

lemma allocScan_found (s : Nat) : ∀ (l l2 : List ArenaBlock) (i off : Nat),
    allocScan s l = some (l2, i, off) →
    i < l.length ∧ off = (l.getD i d0).used ∧ s + off ≤ (l.getD i d0).size ∧
      (l2.getD i d0).used = off + s := by
  intro l
  induction l with
  | nil => intro l2 i off h; simp [allocScan] at h
  | cons b bs ih =>
    intro l2 i off h
    rw [allocScan] at h
    split at h
    · rename_i hb
      cases h
      refine ⟨by simp, by simp, by simpa using hb, by simp [Nat.add_comm]⟩
    · split at h
      · rename_i bs2 i2 off2 heq
        cases h
        obtain ⟨h1, h2, h3, h4⟩ := ih _ _ _ heq
        exact ⟨by simpa using h1, by simpa using h2, by simpa using h3, by simpa using h4⟩
      · cases h

lemma allocScan_full_stable (s : Nat) : ∀ (l l2 : List ArenaBlock) (i off j : Nat),
    allocScan s l = some (l2, i, off) →
    (l.getD j d0).used = (l.getD j d0).size →
    l2.getD j d0 = l.getD j d0 := by
  intro l
  induction l with
  | nil => intro l2 i off j h; simp [allocScan] at h
  | cons b bs ih =>
    intro l2 i off j h hfull
    rw [allocScan] at h
    split at h
    · rename_i hb
      cases h
      cases j with
      | zero =>
        simp only [List.getD_cons_zero] at hfull ⊢
        have hs : s = 0 := by omega
        cases b with
        | mk bsz bus => simp [hs]
      | succ j => simp
    · split at h
      · rename_i bs2 i2 off2 heq
        cases h
        cases j with
        | zero => simp
        | succ j =>
          simp only [List.getD_cons_succ] at hfull ⊢
          exact ih _ _ _ _ heq hfull
      · cases h

lemma allocScan_good (s : Nat) (P : ArenaBlock → Prop)
    (hstep : ∀ b : ArenaBlock, P b → s + b.used ≤ b.size →
      P { size := b.size, used := b.used + s }) :
    ∀ (l l2 : List ArenaBlock) (i off : Nat),
    allocScan s l = some (l2, i, off) →
    (∀ b ∈ l, P b) → ∀ b ∈ l2, P b := by
  intro l
  induction l with
  | nil => intro l2 i off h; simp [allocScan] at h
  | cons b bs ih =>
    intro l2 i off h hgood
    rw [allocScan] at h
    split at h
    · rename_i hb
      cases h
      intro c hc
      rcases List.mem_cons.mp hc with hc | hc
      · subst hc; exact hstep b (hgood b (by simp)) hb
      · exact hgood c (by simp [hc])
    · split at h
      · rename_i bs2 i2 off2 heq
        cases h
        intro c hc
        rcases List.mem_cons.mp hc with hc | hc
        · subst hc; exact hgood c (by simp)
        · exact ih _ _ _ heq (fun x hx => hgood x (by simp [hx])) c hc
      · cases h

lemma allocScan_eq_none_iff (s : Nat) (l : List ArenaBlock) :
    allocScan s l = none ↔ ∀ b ∈ l, ¬ (s + b.used ≤ b.size) := by
  induction l with
  | nil => simp [allocScan]
  | cons b bs ih =>
    rw [allocScan]
    split
    · rename_i hb
      simp only [iff_iff_implies_and_implies]
      constructor
      · intro h; cases h
      · intro h; exact absurd hb (h b (by simp))
    · rename_i hb
      constructor
      · intro h c hc
        rcases List.mem_cons.mp hc with hc | hc
        · subst hc; exact hb
        · split at h
          · cases h
          · rename_i heq
            exact (ih.mp heq) c hc
      · intro h
        split
        · rename_i bs2 i2 off2 heq
          have : allocScan s bs = none := ih.mpr (fun c hc => h c (by simp [hc]))
          rw [this] at heq
          cases heq
        · rfl

lemma allocScan_append_some (s : Nat) :
    ∀ (l1 l2 l' : List ArenaBlock) (i off : Nat),
    allocScan s l1 = some (l', i, off) →
    allocScan s (l1 ++ l2) = some (l' ++ l2, i, off) := by
  intro l1
  induction l1 with
  | nil => intro l2 l' i off h; simp [allocScan] at h
  | cons b bs ih =>
    intro l2 l' i off h
    rw [allocScan] at h
    rw [List.cons_append, allocScan]
    split at h
    · rename_i hb
      cases h
      simp [hb]
    · rename_i hb
      simp only [if_neg hb]
      split at h
      · rename_i bs2 i2 off2 heq
        cases h
        rw [ih _ _ _ _ heq]
        simp
      · cases h

lemma allocScan_append_head_fit (s : Nat) :
    ∀ (l1 : List ArenaBlock) (b : ArenaBlock) (l2 : List ArenaBlock),
    allocScan s l1 = none → s + b.used ≤ b.size →
    allocScan s (l1 ++ b :: l2) =
      some (l1 ++ ({ size := b.size, used := b.used + s } :: l2), l1.length, b.used) := by
  intro l1
  induction l1 with
  | nil => intro b l2 h hb; simp [allocScan, hb]
  | cons c cs ih =>
    intro b l2 h hb
    rw [allocScan] at h
    rw [List.cons_append, allocScan]
    split at h
    · cases h
    · rename_i hc
      simp only [if_neg hc]
      split at h
      · cases h
      · rename_i heq
        rw [ih b l2 heq hb]
        simp

/-! ### Unfolding lemmas for `arena_alloc` -/

lemma arena_alloc_scan_some (a : Arena) (sz : Nat) (l2 : List ArenaBlock) (i off : Nat)
    (h : allocScan (round_up_to_multiple sz MAX_ALIGN) a.blocks = some (l2, i, off)) :
    arena_alloc a sz = ({ a with blocks := l2 }, i, off) := by
  rw [arena_alloc]
  simp only [h]

lemma arena_alloc_scan_none (a : Arena) (sz : Nat)
    (h : allocScan (round_up_to_multiple sz MAX_ALIGN) a.blocks = none) :
    arena_alloc a sz =
      ({ blocks := a.blocks ++
            [{ size := if round_up_to_multiple sz MAX_ALIGN >
                  BLOCKSIZE_MIN <<< (a.block_seq >>> 1)
                then round_up_to_multiple sz MAX_ALIGN
                else BLOCKSIZE_MIN <<< (a.block_seq >>> 1),
               used := round_up_to_multiple sz MAX_ALIGN }],
         endIdx := some a.blocks.length,
         block_seq := if BLOCKSIZE_MIN <<< (a.block_seq >>> 1) < BLOCKSIZE_MAX
           then a.block_seq + 1 else a.block_seq },
       a.blocks.length, 0) := by
  rw [arena_alloc]
  simp only [h]

lemma arena_alloc_length_mono (a : Arena) (sz : Nat) :
    a.blocks.length ≤ (arena_alloc a sz).1.blocks.length := by
  rcases hscan : allocScan (round_up_to_multiple sz MAX_ALIGN) a.blocks with - | ⟨l2, i, off⟩
  · rw [arena_alloc_scan_none a sz hscan]; simp
  · rw [arena_alloc_scan_some a sz l2 i off hscan]
    simp [allocScan_length _ _ _ _ _ hscan]

lemma arena_alloc_sizes (a : Arena) (sz : Nat) (j : Nat) (hj : j < a.blocks.length) :
    ((arena_alloc a sz).1.blocks.getD j d0).size = (a.blocks.getD j d0).size := by
  rcases hscan : allocScan (round_up_to_multiple sz MAX_ALIGN) a.blocks with - | ⟨l2, i, off⟩
  · rw [arena_alloc_scan_none a sz hscan]
    dsimp only
    simp only [List.getD_eq_getElem?_getD, List.getElem?_append_left hj]
  · rw [arena_alloc_scan_some a sz l2 i off hscan]
    exact allocScan_sizes _ _ _ _ _ hscan j

lemma arena_alloc_full_stable (a : Arena) (sz : Nat) (j : Nat) (hj : j < a.blocks.length)
    (hfull : (a.blocks.getD j d0).used = (a.blocks.getD j d0).size) :
    (arena_alloc a sz).1.blocks.getD j d0 = a.blocks.getD j d0 := by
  rcases hscan : allocScan (round_up_to_multiple sz MAX_ALIGN) a.blocks with - | ⟨l2, i, off⟩
  · rw [arena_alloc_scan_none a sz hscan]
    dsimp only
    simp only [List.getD_eq_getElem?_getD, List.getElem?_append_left hj]
  · rw [arena_alloc_scan_some a sz l2 i off hscan]
    exact allocScan_full_stable _ _ _ _ _ _ hscan hfull

/-! ### Properties of the rewind walk -/

lemma rewindBlocks_length (off : Nat) : ∀ (i : Nat) (l : List ArenaBlock),
    (rewindBlocks off i l).length = l.length := by
  intro i
  induction i with
  | zero =>
    intro l
    cases l with
    | nil => rfl
    | cons b bs => simp [rewindBlocks]
  | succ i ih =>
    intro l
    cases l with
    | nil => rfl
    | cons b bs => simp [rewindBlocks, ih bs]

lemma rewindBlocks_eq (off : Nat) : ∀ (i : Nat) (l : List ArenaBlock), i < l.length →
    rewindBlocks off i l =
      l.take i ++ ({ size := (l.getD i d0).size, used := off } ::
        (l.drop (i + 1)).map zeroUsed) := by
  intro i
  induction i with
  | zero =>
    intro l hl
    cases l with
    | nil => simp at hl
    | cons b bs => simp [rewindBlocks]
  | succ i ih =>
    intro l hl
    cases l with
    | nil => simp at hl
    | cons b bs =>
      simp only [List.length_cons] at hl
      simp [rewindBlocks, ih bs (by omega)]

lemma rewindBlocks_getD_lt (off : Nat) : ∀ (i : Nat) (l : List ArenaBlock) (j : Nat),
    j < i → (rewindBlocks off i l).getD j d0 = l.getD j d0 := by
  intro i
  induction i with
  | zero => intro l j hj; omega
  | succ i ih =>
    intro l j hj
    cases l with
    | nil => simp [rewindBlocks]
    | cons b bs =>
      cases j with
      | zero => simp [rewindBlocks]
      | succ j => simpa [rewindBlocks] using ih bs j (by omega)

lemma rewindBlocks_getD_eq (off : Nat) : ∀ (i : Nat) (l : List ArenaBlock), i < l.length →
    (rewindBlocks off i l).getD i d0 = { size := (l.getD i d0).size, used := off } := by
  intro i
  induction i with
  | zero =>
    intro l hl
    cases l with
    | nil => simp at hl
    | cons b bs => simp [rewindBlocks]
  | succ i ih =>
    intro l hl
    cases l with
    | nil => simp at hl
    | cons b bs =>
      simp only [List.length_cons] at hl
      simpa [rewindBlocks] using ih bs (by omega)

lemma rewindBlocks_getD_gt (off : Nat) : ∀ (i : Nat) (l : List ArenaBlock) (j : Nat),
    i < j → j < l.length →
    (rewindBlocks off i l).getD j d0 = { size := (l.getD j d0).size, used := 0 } := by
  intro i
  induction i with
  | zero =>
    intro l j hij hj
    cases l with
    | nil => simp at hj
    | cons b bs =>
      cases j with
      | zero => omega
      | succ j =>
        simp only [List.length_cons] at hj
        simp only [rewindBlocks, List.getD_cons_succ]
        rw [List.getD_eq_getElem?_getD, List.getElem?_eq_getElem (by simpa using hj)]
        rw [List.getD_eq_getElem?_getD, List.getElem?_eq_getElem (by simpa using hj)]
        simp [zeroUsed]
  | succ i ih =>
    intro l j hij hj
    cases l with
    | nil => simp at hj
    | cons b bs =>
      cases j with
      | zero => omega
      | succ j =>
        simp only [List.length_cons] at hj
        simpa [rewindBlocks] using ih bs j (by omega) (by omega)

/-! ### Properties of allocation sequences -/

lemma runAllocs_cons (a : Arena) (sz : Nat) (rest : List Nat) :
    runAllocs a (sz :: rest) =
      ((runAllocs (arena_alloc a sz).1 rest).1,
        (arena_alloc a sz).2 :: (runAllocs (arena_alloc a sz).1 rest).2) := rfl

lemma runAllocs_length_mono (A : List Nat) : ∀ (a : Arena),
    a.blocks.length ≤ (runAllocs a A).1.blocks.length := by
  induction A with
  | nil => intro a; simp [runAllocs]
  | cons sz rest ih =>
    intro a
    rw [runAllocs_cons]
    exact le_trans (arena_alloc_length_mono a sz) (ih (arena_alloc a sz).1)

lemma runAllocs_sizes (A : List Nat) : ∀ (a : Arena) (j : Nat), j < a.blocks.length →
    ((runAllocs a A).1.blocks.getD j d0).size = (a.blocks.getD j d0).size := by
  induction A with
  | nil => intro a j hj; rfl
  | cons sz rest ih =>
    intro a j hj
    rw [runAllocs_cons]
    have h1 : j < (arena_alloc a sz).1.blocks.length :=
      lt_of_lt_of_le hj (arena_alloc_length_mono a sz)
    rw [ih (arena_alloc a sz).1 j h1]
    exact arena_alloc_sizes a sz j hj

lemma runAllocs_full_stable (A : List Nat) : ∀ (a : Arena) (j : Nat), j < a.blocks.length →
    (a.blocks.getD j d0).used = (a.blocks.getD j d0).size →
    (runAllocs a A).1.blocks.getD j d0 = a.blocks.getD j d0 := by
  induction A with
  | nil => intro a j hj hfull; rfl
  | cons sz rest ih =>
    intro a j hj hfull
    rw [runAllocs_cons]
    have h1 : j < (arena_alloc a sz).1.blocks.length :=
      lt_of_lt_of_le hj (arena_alloc_length_mono a sz)
    have h2 : (arena_alloc a sz).1.blocks.getD j d0 = a.blocks.getD j d0 :=
      arena_alloc_full_stable a sz j hj hfull
    rw [ih (arena_alloc a sz).1 j h1 (by rw [h2]; exact hfull), h2]

/-! ### Restoring a packed arena by rewinding to its snapshot -/

lemma getD_eq_getElem (l : List ArenaBlock) (j : Nat) (h : j < l.length) :
    l.getD j d0 = l[j] := by
  simp [List.getD_eq_getElem?_getD, List.getElem?_eq_getElem h]

lemma take_eq_of_getD (l1 l2 : List ArenaBlock) (e : Nat)
    (h1 : e ≤ l1.length) (h2 : e ≤ l2.length)
    (h : ∀ j, j < e → l1.getD j d0 = l2.getD j d0) : l1.take e = l2.take e := by
  apply List.ext_getElem?
  intro n
  by_cases hn : n < e
  · have hn1 : n < l1.length := lt_of_lt_of_le hn h1
    have hn2 : n < l2.length := lt_of_lt_of_le hn h2
    simp only [List.getElem?_take, hn, if_true]
    rw [List.getElem?_eq_getElem hn1, List.getElem?_eq_getElem hn2]
    have := h n hn
    rw [getD_eq_getElem _ _ hn1, getD_eq_getElem _ _ hn2] at this
    simpa using this
  · simp [List.getElem?_take, hn]

lemma eq_take_concat (l : List ArenaBlock) (e : Nat) (h : l.length = e + 1) :
    l = l.take e ++ [l.getD e d0] := by
  conv_lhs => rw [(List.take_append_drop e l).symm]
  congr 1
  rw [List.drop_eq_getElem_cons (by omega), List.drop_eq_nil_of_le (by omega)]
  rw [getD_eq_getElem _ _ (by omega)]

/-- Rewinding to a snapshot of a packed arena after any allocation burst
restores exactly the pre-snapshot chain, followed by the blocks created
during the burst with their cursors cleared. -/
lemma scratch_restore (a : Arena) (hp : Packed a) (A : List Nat) :
    (arena_rewind (runAllocs a A).1 (arena_snapshot a)).blocks =
      a.blocks ++ ((runAllocs a A).1.blocks.drop a.blocks.length).map zeroUsed := by
  obtain ⟨hempty, hne, hfull⟩ := hp
  by_cases h0 : a.blocks = []
  · have he : a.endIdx = none := hempty h0
    simp [arena_snapshot, he, arena_rewind, arena_reset, h0]
  · have he : a.endIdx = some (a.blocks.length - 1) := hne h0
    have hlen : 0 < a.blocks.length := List.length_pos.mpr h0
    set e := a.blocks.length - 1 with hedef
    have haelen : a.blocks.length = e + 1 := by omega
    set F := (runAllocs a A).1 with hF
    have hFlen : a.blocks.length ≤ F.blocks.length := runAllocs_length_mono A a
    have heF : e < F.blocks.length := by omega
    simp only [arena_snapshot, he, arena_rewind]
    rw [rewindBlocks_eq _ _ _ heF]
    have hsize : (F.blocks.getD e d0).size = (a.blocks.getD e d0).size :=
      runAllocs_sizes A a e (by omega)
    have htake : F.blocks.take e = a.blocks.take e := by
      apply take_eq_of_getD _ _ _ (by omega) (by omega)
      intro j hj
      exact runAllocs_full_stable A a j (by omega) (hfull j (by omega))
    have hmid : (ArenaBlock.mk (F.blocks.getD e d0).size (a.blocks.getD e d0).used)
        = a.blocks.getD e d0 := by
      rw [hsize]
    rw [htake, hmid]
    have hdec : a.blocks.take e ++ (a.blocks.getD e d0 ::
        (F.blocks.drop (e + 1)).map zeroUsed) =
        (a.blocks.take e ++ [a.blocks.getD e d0]) ++
          (F.blocks.drop (e + 1)).map zeroUsed := by
      simp
    rw [hdec, ← eq_take_concat a.blocks e haelen, haelen]

/-! ### Replay: a run against leftover zeroed blocks mirrors the original run -/

lemma getD_concat_length (l : List ArenaBlock) (b : ArenaBlock) :
    (l ++ [b]).getD l.length d0 = b := by
  simp [List.getD_eq_getElem?_getD, List.getElem?_append_right (le_refl l.length)]

/-- If a chain extends the original one by exactly the blocks the original
run will create — zeroed — then replaying the same allocation sequence yields
the same (block index, offset) placement for every allocation. -/
lemma replay (A : List Nat) : ∀ (u t : Arena),
    t.blocks = u.blocks ++ ((runAllocs u A).1.blocks.drop u.blocks.length).map zeroUsed →
    (runAllocs t A).2 = (runAllocs u A).2 := by
  induction A with
  | nil => intro u t ht; rfl
  | cons sz rest ih =>
    intro u t ht
    rcases hscan : allocScan (round_up_to_multiple sz MAX_ALIGN) u.blocks
      with - | ⟨l2, i, off⟩
    · -- no block of the original chain fits: the original run creates a block
      have hu := arena_alloc_scan_none u sz hscan
      have hcons1 : (runAllocs u (sz :: rest)).1 =
          (runAllocs (arena_alloc u sz).1 rest).1 := by rw [runAllocs_cons]
      rw [hu] at hcons1
      -- names for the freshly created block
      set s := round_up_to_multiple sz MAX_ALIGN with hs
      set blocksize := BLOCKSIZE_MIN <<< (u.block_seq >>> 1) with hbs
      set cap := if s > blocksize then s else blocksize with hcap
      set seq2 := if blocksize < BLOCKSIZE_MAX then u.block_seq + 1 else u.block_seq
        with hseq2
      set u2 : Arena :=
        { blocks := u.blocks ++ [{ size := cap, used := s }],
          endIdx := some u.blocks.length, block_seq := seq2 } with hu2
      set F := (runAllocs u2 rest).1 with hF
      have hcapge : s ≤ cap := by
        rw [hcap]; split <;> omega
      have hlenF : u.blocks.length + 1 ≤ F.blocks.length := by
        have h1 : u2.blocks.length = u.blocks.length + 1 := by
          rw [hu2]; simp
        have h2 : u2.blocks.length ≤ F.blocks.length := by
          rw [hF]; exact runAllocs_length_mono rest u2
        omega
      have hgetF : F.blocks.getD u.blocks.length d0 =
          ArenaBlock.mk cap ((F.blocks.getD u.blocks.length d0).used) := by
        have h1 : (F.blocks.getD u.blocks.length d0).size =
            (u2.blocks.getD u.blocks.length d0).size := by
          apply runAllocs_sizes
          rw [hu2]; simp
        have h2 : u2.blocks.getD u.blocks.length d0 =
            ArenaBlock.mk cap s := by
          rw [hu2]
          exact getD_concat_length u.blocks (ArenaBlock.mk cap s)
        cases hb : F.blocks.getD u.blocks.length d0
        rw [hb] at h1
        rw [h2] at h1
        simp at h1
        simp [h1]
      have hdrop : F.blocks.drop u.blocks.length =
          F.blocks.getD u.blocks.length d0 :: F.blocks.drop (u.blocks.length + 1) := by
        rw [List.drop_eq_getElem_cons (by omega)]
        rw [getD_eq_getElem _ _ (by omega)]
      have ht2 : t.blocks = u.blocks ++
          (ArenaBlock.mk cap 0 :: (F.blocks.drop (u.blocks.length + 1)).map zeroUsed) := by
        rw [ht, hcons1, hdrop]
        rw [List.map_cons]
        rw [hgetF]
        rfl
      have hscan_t : allocScan s t.blocks =
          some (u.blocks ++ (ArenaBlock.mk cap (0 + s) ::
            (F.blocks.drop (u.blocks.length + 1)).map zeroUsed), u.blocks.length, 0) := by
        rw [ht2]
        exact allocScan_append_head_fit s u.blocks (ArenaBlock.mk cap 0)
          ((F.blocks.drop (u.blocks.length + 1)).map zeroUsed) hscan (by simpa using hcapge)
      have htalloc := arena_alloc_scan_some t sz _ _ _ hscan_t
      rw [runAllocs_cons, runAllocs_cons, hu, htalloc]
      dsimp only
      congr 1
      apply ih
      dsimp only
      rw [← hF]
      have : u.blocks ++ (ArenaBlock.mk cap (0 + s) ::
          (F.blocks.drop (u.blocks.length + 1)).map zeroUsed) =
          (u.blocks ++ [ArenaBlock.mk cap s]) ++
            (F.blocks.drop (u.blocks.length + 1)).map zeroUsed := by
        simp
      rw [this]
      have hlen2 : (u.blocks ++ [ArenaBlock.mk cap s]).length = u.blocks.length + 1 := by
        simp
      rw [hlen2]
    · -- some existing block fits: both runs bump the same block
      have hu := arena_alloc_scan_some u sz l2 i off hscan
      have hlen2 : l2.length = u.blocks.length := allocScan_length _ _ _ _ _ hscan
      have hcons1 : (runAllocs u (sz :: rest)).1 =
          (runAllocs (arena_alloc u sz).1 rest).1 := by rw [runAllocs_cons]
      rw [hu] at hcons1
      have hscan_t : allocScan (round_up_to_multiple sz MAX_ALIGN) t.blocks =
          some (l2 ++ ((runAllocs u (sz :: rest)).1.blocks.drop u.blocks.length).map zeroUsed,
            i, off) := by
        rw [ht]
        exact allocScan_append_some _ _ _ _ _ _ hscan
      have htalloc := arena_alloc_scan_some t sz _ _ _ hscan_t
      rw [runAllocs_cons, runAllocs_cons, hu, htalloc]
      dsimp only
      congr 1
      apply ih
      dsimp only
      rw [hcons1, ← hlen2]

/-! ### The reachable-state invariant -/

lemma getD_default (l : List ArenaBlock) (j : Nat) (h : l.length ≤ j) :
    l.getD j d0 = d0 := by
  simp [List.getD_eq_getElem?_getD, List.getElem?_eq_none h]

lemma blocksize_lt_max (seq : Nat)
    (h : BLOCKSIZE_MIN <<< (seq >>> 1) < BLOCKSIZE_MAX) : seq ≤ 21 := by
  rw [Nat.shiftLeft_eq] at h
  have hmax : BLOCKSIZE_MAX = 2 ^ 20 := by
    rw [BLOCKSIZE_MAX, Nat.shiftLeft_eq]; norm_num
  rw [hmax] at h
  have h2 : (2 : Nat) ^ (seq >>> 1) < 2 ^ 11 := by
    have hp : (0 : Nat) < 2 ^ (seq >>> 1) := Nat.pos_pow_of_pos _ (by norm_num)
    rw [BLOCKSIZE_MIN] at h
    norm_num at h ⊢
    omega
  have h3 : seq >>> 1 < 11 := by
    by_contra hc
    push_neg at hc
    have := Nat.pow_le_pow_right (show 0 < 2 by norm_num) hc
    omega
  rw [Nat.shiftRight_one] at h3
  omega

lemma goodArena_alloc (a : Arena) (sz : Nat) (h : GoodArena a) :
    GoodArena (arena_alloc a sz).1 := by
  obtain ⟨hb, he, hs⟩ := h
  have hdvd : MAX_ALIGN ∣ round_up_to_multiple sz MAX_ALIGN := round_up_dvd sz
  rcases hscan : allocScan (round_up_to_multiple sz MAX_ALIGN) a.blocks
    with - | ⟨l2, i, off⟩
  · rw [arena_alloc_scan_none a sz hscan]
    refine ⟨?_, ?_, ?_⟩
    · intro b hmem
      rcases List.mem_append.mp hmem with hmem | hmem
      · exact hb b hmem
      · rcases List.mem_singleton.mp hmem with rfl
        constructor
        · dsimp only
          split <;> omega
        · exact hdvd
    · intro i hi
      cases hi
      simp
    · show (if BLOCKSIZE_MIN <<< (a.block_seq >>> 1) < BLOCKSIZE_MAX
        then a.block_seq + 1 else a.block_seq) ≤ 22
      split
      · rename_i hlt
        have := blocksize_lt_max a.block_seq hlt
        omega
      · exact hs
  · rw [arena_alloc_scan_some a sz l2 i off hscan]
    refine ⟨?_, ?_, hs⟩
    · apply allocScan_good _ GoodBlock _ _ _ _ _ hscan hb
      intro b hgood hfit
      have h1 := hgood.1
      exact ⟨by dsimp only; omega, dvd_add hgood.2 hdvd⟩
    · intro j hj
      rw [allocScan_length _ _ _ _ _ hscan]
      exact he j hj

lemma map_zeroUsed_sizes (l : List ArenaBlock) (j : Nat) :
    ((l.map zeroUsed).getD j d0).size = (l.getD j d0).size := by
  rcases Nat.lt_or_ge j l.length with hj | hj
  · rw [getD_eq_getElem _ _ (by simpa using hj), getD_eq_getElem _ _ hj]
    simp [zeroUsed]
  · rw [getD_default _ _ (by simpa using hj), getD_default _ _ hj]

lemma goodArena_reset (a : Arena) (h : GoodArena a) : GoodArena (arena_reset a) := by
  obtain ⟨hb, he, hs⟩ := h
  refine ⟨?_, ?_, hs⟩
  · intro b hmem
    rw [arena_reset] at hmem
    simp only [List.mem_map] at hmem
    obtain ⟨c, hc, rfl⟩ := hmem
    exact ⟨Nat.zero_le _, dvd_zero _⟩
  · intro i hi
    rw [arena_reset] at hi
    simp only at hi
    split at hi
    · cases hi
    · rename_i hne
      cases hi
      simp only [arena_reset, List.length_map]
      rw [List.isEmpty_iff] at hne
      exact List.length_pos.mpr hne

lemma rewindBlocks_good (off : Nat) (hdvd : MAX_ALIGN ∣ off) :
    ∀ (i : Nat) (l : List ArenaBlock), off ≤ (l.getD i d0).size →
    (∀ b ∈ l, GoodBlock b) → ∀ b ∈ rewindBlocks off i l, GoodBlock b := by
  intro i
  induction i with
  | zero =>
    intro l hoff hgood b hmem
    cases l with
    | nil => simp [rewindBlocks] at hmem
    | cons c cs =>
      rw [rewindBlocks] at hmem
      rcases List.mem_cons.mp hmem with rfl | hmem
      · exact ⟨by simpa using hoff, hdvd⟩
      · simp only [List.mem_map] at hmem
        obtain ⟨x, hx, rfl⟩ := hmem
        exact ⟨Nat.zero_le _, dvd_zero _⟩
  | succ i ih =>
    intro l hoff hgood b hmem
    cases l with
    | nil => simp [rewindBlocks] at hmem
    | cons c cs =>
      rw [rewindBlocks] at hmem
      rcases List.mem_cons.mp hmem with rfl | hmem
      · exact hgood b (by simp)
      · exact ih cs (by simpa using hoff) (fun x hx => hgood x (by simp [hx])) b hmem

lemma rewindBlocks_sizes (off i : Nat) (l : List ArenaBlock) (hi : i < l.length) (j : Nat) :
    ((rewindBlocks off i l).getD j d0).size = (l.getD j d0).size := by
  rcases Nat.lt_or_ge j l.length with hj | hj
  · rcases Nat.lt_trichotomy j i with hji | rfl | hji
    · rw [rewindBlocks_getD_lt off i l j hji]
    · rw [rewindBlocks_getD_eq off j l hj]
    · rw [rewindBlocks_getD_gt off i l j hji hj]
  · rw [getD_default _ _ (by rw [rewindBlocks_length]; exact hj), getD_default _ _ hj]

lemma goodArena_rewind (a : Arena) (m : ArenaMarker)
    (hm : GoodMarker a m) (h : GoodArena a) : GoodArena (arena_rewind a m) := by
  obtain ⟨hb, he, hs⟩ := h
  rcases m with ⟨mb, moff⟩
  cases mb with
  | none => exact goodArena_reset a ⟨hb, he, hs⟩
  | some i =>
    obtain ⟨hi, hoff, hdvd⟩ := hm
    refine ⟨?_, ?_, hs⟩
    · intro b hmem
      rw [arena_rewind] at hmem
      exact rewindBlocks_good moff hdvd i a.blocks hoff hb b hmem
    · intro j hj
      rw [arena_rewind] at hj
      simp only at hj
      cases hj
      simp only [arena_rewind, rewindBlocks_length]
      exact hi

lemma goodMarker_mono (a a2 : Arena) (m : ArenaMarker)
    (hlen : a.blocks.length ≤ a2.blocks.length)
    (hsz : ∀ j, j < a.blocks.length →
      (a2.blocks.getD j d0).size = (a.blocks.getD j d0).size)
    (h : GoodMarker a m) : GoodMarker a2 m := by
  rcases m with ⟨mb, moff⟩
  cases mb with
  | none => exact h
  | some i =>
    obtain ⟨hi, hoff, hdvd⟩ := h
    exact ⟨by omega, by rw [hsz i hi]; exact hoff, hdvd⟩

lemma goodMarker_snapshot (a : Arena) (h : GoodArena a) :
    GoodMarker a (arena_snapshot a) := by
  obtain ⟨hb, he, hs⟩ := h
  rw [arena_snapshot]
  cases hend : a.endIdx with
  | none => rfl
  | some i =>
    have hi := he i hend
    have hmem : a.blocks.getD i d0 ∈ a.blocks := by
      rw [getD_eq_getElem _ _ hi]
      exact List.getElem_mem hi
    exact ⟨hi, (hb _ hmem).1, (hb _ hmem).2⟩

/-- The reachable-state invariant: every reachable arena is good and every
captured marker stays good for it. -/
lemma reach_inv (a : Arena) (ms : List ArenaMarker) (h : Reach a ms) :
    GoodArena a ∧ ∀ m ∈ ms, GoodMarker a m := by
  induction h with
  | init =>
    refine ⟨⟨?_, ?_, ?_⟩, ?_⟩
    · intro b hmem; simp [arena_init] at hmem
    · intro i hi; simp [arena_init] at hi
    · simp [arena_init]
    · intro m hm; simp at hm
  | alloc a ms sz hr ih =>
    obtain ⟨hga, hms⟩ := ih
    refine ⟨goodArena_alloc a sz hga, ?_⟩
    intro m hm
    exact goodMarker_mono a _ m (arena_alloc_length_mono a sz)
      (fun j hj => arena_alloc_sizes a sz j hj) (hms m hm)
  | snap a ms hr ih =>
    obtain ⟨hga, hms⟩ := ih
    refine ⟨hga, ?_⟩
    intro m hm
    rcases List.mem_cons.mp hm with rfl | hm
    · exact goodMarker_snapshot a hga
    · exact hms m hm
  | reset a ms hr ih =>
    obtain ⟨hga, hms⟩ := ih
    refine ⟨goodArena_reset a hga, ?_⟩
    intro m hm
    apply goodMarker_mono a _ m (by simp [arena_reset]) _ (hms m hm)
    intro j hj
    exact map_zeroUsed_sizes a.blocks j
  | rewind a ms m hmem hr ih =>
    obtain ⟨hga, hms⟩ := ih
    have hm := hms m hmem
    refine ⟨goodArena_rewind a m hm hga, ?_⟩
    intro m2 hm2
    rcases m with ⟨mb, moff⟩
    cases mb with
    | none =>
      apply goodMarker_mono a _ m2 (by simp [arena_rewind, arena_reset]) _ (hms m2 hm2)
      intro j hj
      show ((a.blocks.map zeroUsed).getD j d0).size = _
      exact map_zeroUsed_sizes a.blocks j
    | some i =>
      obtain ⟨hi, hoff, hdvd⟩ := hm
      apply goodMarker_mono a _ m2 ?_ ?_ (hms m2 hm2)
      · simp [arena_rewind, rewindBlocks_length]
      · intro j hj
        show ((rewindBlocks moff i a.blocks).getD j d0).size = _
        exact rewindBlocks_sizes moff i a.blocks hi j

lemma scheduled_le_max (seq : Nat) (h : seq ≤ 22) :
    BLOCKSIZE_MIN <<< (seq >>> 1) ≤ BLOCKSIZE_MAX := by
  rw [Nat.shiftLeft_eq, Nat.shiftRight_one]
  have h1 : seq / 2 ≤ 11 := by omega
  have h2 : (2 : Nat) ^ (seq / 2) ≤ 2 ^ 11 := Nat.pow_le_pow_right (by norm_num) h1
  have hmax : BLOCKSIZE_MAX = 1048576 := by
    rw [BLOCKSIZE_MAX, Nat.shiftLeft_eq]
  rw [hmax, BLOCKSIZE_MIN]
  norm_num at h2 ⊢
  omega

/-! ## The claims -/

/-- Claim C1, counterexample to the original statement.  Start from the
reachable arena `caHoley` (blocks `[(512, 16), (512, 512)]`, reached from a
fresh arena by allocating 16 then 512 bytes).  Enter a scratch scope,
allocate 16 bytes — the first-fit scan places them in block 0, which has
spare room and is *before* the marker block — and exit the scope.  Block 0's
`used` is then 32, not its scope-entry value 16: the scratch exit does not
reclaim allocations that landed before the marker block. -/
theorem c1_counterexample :
    ((arena_scratch_deinit (arena_scratch_init caHoley)
        (runAllocs caHoley [16]).1).blocks.getD 0 d0).used
      ≠ (caHoley.blocks.getD 0 d0).used := by decide

/-- Claim C1 (amended): scratch-scope reclamation holds for every *packed*
entry state — one whose `end` block is the last block of the chain with every
earlier block exactly full (a fresh arena in particular).  For any allocation
sequence performed inside the scope, after the scratch exit every block that
existed at scope entry has its `used` counter back at its entry value, and
the exit itself releases nothing: block count and every block's capacity are
exactly those of the state just before the exit. -/
theorem c1_scratch_reclamation (a : Arena) (hp : Packed a) (A : List Nat) :
    (∀ j, j < a.blocks.length →
      ((arena_scratch_deinit (arena_scratch_init a)
          (runAllocs a A).1).blocks.getD j d0).used
        = (a.blocks.getD j d0).used) ∧
    (arena_scratch_deinit (arena_scratch_init a) (runAllocs a A).1).blocks.length
      = (runAllocs a A).1.blocks.length ∧
    (∀ j, ((arena_scratch_deinit (arena_scratch_init a)
        (runAllocs a A).1).blocks.getD j d0).size
      = ((runAllocs a A).1.blocks.getD j d0).size) := by
  have hres : (arena_scratch_deinit (arena_scratch_init a) (runAllocs a A).1).blocks
      = a.blocks ++ ((runAllocs a A).1.blocks.drop a.blocks.length).map zeroUsed :=
    scratch_restore a hp A
  have hmono : a.blocks.length ≤ (runAllocs a A).1.blocks.length :=
    runAllocs_length_mono A a
  have hlen : (arena_scratch_deinit (arena_scratch_init a)
      (runAllocs a A).1).blocks.length = (runAllocs a A).1.blocks.length := by
    rw [hres, List.length_append, List.length_map, List.length_drop]
    omega
  refine ⟨?_, hlen, ?_⟩
  · intro j hj
    rw [hres, List.getD_append _ _ _ _ hj]
  · intro j
    rcases Nat.lt_or_ge j a.blocks.length with hj | hj
    · rw [hres, List.getD_append _ _ _ _ hj]
      exact (runAllocs_sizes A a j hj).symm
    · rcases Nat.lt_or_ge j (runAllocs a A).1.blocks.length with hj2 | hj2
      · rw [hres]
        rw [List.getD_eq_getElem?_getD, List.getElem?_append_right hj]
        rw [List.getElem?_map]
        rw [List.getElem?_drop]
        have hadd : a.blocks.length + (j - a.blocks.length) = j := by omega
        rw [hadd, List.getElem?_eq_getElem hj2, getD_eq_getElem _ _ hj2]
        rfl
      · rw [getD_default _ _ (by omega : (runAllocs a A).1.blocks.length ≤ j)]
        rw [getD_default _ _ (by rw [hlen]; omega)]

/-- Claim C2, counterexample to the original statement.  Start from the
reachable arena `caHoley2` (blocks `[(512, 16), (512, 512)]`).  Take a
snapshot, allocate 16 bytes (placed in block 0 at offset 16), rewind, and
allocate 16 bytes again: the rewind did not restore block 0 — which sits
before the marker block — so the second run places the allocation at offset
32 of block 0 instead of 16. -/
theorem c2_counterexample :
    (runAllocs (arena_rewind (runAllocs caHoley2 [16]).1
        (arena_snapshot caHoley2)) [16]).2
      ≠ (runAllocs caHoley2 [16]).2 := by decide

/-- Claim C2 (amended): the rewind round-trip is deterministic from every
*packed* state — one whose `end` block is the last block of the chain with
every earlier block exactly full (a fresh arena in particular): snapshot,
run an arbitrary allocation sequence, rewind to the snapshot, and run the
same sequence again — every allocation of the second run lands in the same
block (same chain index, hence same block identity) at the same offset as in
the first run. -/
theorem c2_rewind_roundtrip (a : Arena) (hp : Packed a) (A : List Nat) :
    (runAllocs (arena_rewind (runAllocs a A).1 (arena_snapshot a)) A).2
      = (runAllocs a A).2 :=
  replay A a _ (scratch_restore a hp A)

/-- Claim C3 (confirmed): for a still-valid marker with a non-none block
(index `i` in range), `arena_rewind` sets block `i`'s `used` to the saved
offset, zeroes `used` on every block strictly after `i`, points the arena's
`end` at block `i`, keeps every block strictly before `i` (its `used`,
capacity and chain position) and every capacity unchanged, and for a marker
with block `none` it is exactly `arena_reset`. -/
theorem c3_rewind_semantics (a : Arena) (i off : Nat) (hi : i < a.blocks.length) :
    (arena_rewind a { block := some i, offset := off }).blocks.length
      = a.blocks.length ∧
    (∀ j, j < i → (arena_rewind a { block := some i, offset := off }).blocks.getD j d0
      = a.blocks.getD j d0) ∧
    (arena_rewind a { block := some i, offset := off }).blocks.getD i d0
      = ArenaBlock.mk (a.blocks.getD i d0).size off ∧
    (∀ j, i < j → j < a.blocks.length →
      ((arena_rewind a { block := some i, offset := off }).blocks.getD j d0).used = 0 ∧
      ((arena_rewind a { block := some i, offset := off }).blocks.getD j d0).size
        = (a.blocks.getD j d0).size) ∧
    (arena_rewind a { block := some i, offset := off }).endIdx = some i ∧
    (∀ off2, arena_rewind a { block := none, offset := off2 } = arena_reset a) := by
  refine ⟨?_, ?_, ?_, ?_, rfl, fun off2 => rfl⟩
  · show (rewindBlocks off i a.blocks).length = a.blocks.length
    exact rewindBlocks_length off i a.blocks
  · intro j hj
    exact rewindBlocks_getD_lt off i a.blocks j hj
  · exact rewindBlocks_getD_eq off i a.blocks hi
  · intro j hij hj
    have := rewindBlocks_getD_gt off i a.blocks j hij hj
    rw [show (arena_rewind a { block := some i, offset := off }).blocks
      = rewindBlocks off i a.blocks from rfl, this]
    exact ⟨rfl, rfl⟩

/-- Claim C3, witness: the rewind semantics evaluated on the concrete
two-block arena `c3wa` with the marker `(block 0, offset 16)`. -/
theorem c3_rewind_semantics_witness :
    (0 < c3wa.blocks.length) ∧
    ((arena_rewind c3wa { block := some 0, offset := 16 }).blocks.length
      = c3wa.blocks.length ∧
    (∀ j, j < 0 → (arena_rewind c3wa { block := some 0, offset := 16 }).blocks.getD j d0
      = c3wa.blocks.getD j d0) ∧
    (arena_rewind c3wa { block := some 0, offset := 16 }).blocks.getD 0 d0
      = ArenaBlock.mk (c3wa.blocks.getD 0 d0).size 16 ∧
    (∀ j, 0 < j → j < c3wa.blocks.length →
      ((arena_rewind c3wa { block := some 0, offset := 16 }).blocks.getD j d0).used = 0 ∧
      ((arena_rewind c3wa { block := some 0, offset := 16 }).blocks.getD j d0).size
        = (c3wa.blocks.getD j d0).size) ∧
    (arena_rewind c3wa { block := some 0, offset := 16 }).endIdx = some 0 ∧
    (∀ off2, arena_rewind c3wa { block := none, offset := off2 } = arena_reset c3wa)) :=
  ⟨by decide, c3_rewind_semantics c3wa 0 16 (by decide)⟩

/-- Claim C1, witness: the amended scratch-scope theorem applied to the
packed one-block arena `cPacked1` and an in-scope allocation of 600 bytes
(which forces a second, oversized block). -/
theorem c1_scratch_reclamation_witness :
    Packed cPacked1 ∧
    ((∀ j, j < cPacked1.blocks.length →
      ((arena_scratch_deinit (arena_scratch_init cPacked1)
          (runAllocs cPacked1 [600]).1).blocks.getD j d0).used
        = (cPacked1.blocks.getD j d0).used) ∧
    (arena_scratch_deinit (arena_scratch_init cPacked1)
        (runAllocs cPacked1 [600]).1).blocks.length
      = (runAllocs cPacked1 [600]).1.blocks.length ∧
    (∀ j, ((arena_scratch_deinit (arena_scratch_init cPacked1)
        (runAllocs cPacked1 [600]).1).blocks.getD j d0).size
      = ((runAllocs cPacked1 [600]).1.blocks.getD j d0).size)) :=
  ⟨by decide, c1_scratch_reclamation cPacked1 (by decide) [600]⟩

/-- Claim C2, witness: the amended round-trip theorem applied to the packed
one-block arena `cPacked2` and the allocation sequence `[600, 40]` (the
first allocation forces a new block, the second refills the first block). -/
theorem c2_rewind_roundtrip_witness :
    Packed cPacked2 ∧
    (runAllocs (arena_rewind (runAllocs cPacked2 [600, 40]).1
        (arena_snapshot cPacked2)) [600, 40]).2
      = (runAllocs cPacked2 [600, 40]).2 :=
  ⟨by decide, c2_rewind_roundtrip cPacked2 (by decide) [600, 40]⟩

/-- Claim C4, counterexample to the original statement.  On a fresh arena,
request 1000 bytes (aligned: 1008): no block fits and 1008 exceeds the
scheduled capacity 512, so an exact-fit oversized block of 1008 bytes is
created — but `block_seq` advances from 0 to 1, because the code increments
it whenever the scheduled capacity is below `BLOCKSIZE_MAX`, also on the
oversized path.  The claim's "does not advance the growth-step counter" is
false. -/
theorem c4_counterexample :
    (∀ b ∈ arena_init.blocks,
      ¬ (round_up_to_multiple 1000 MAX_ALIGN + b.used ≤ b.size)) ∧
    BLOCKSIZE_MIN <<< (arena_init.block_seq >>> 1)
      < round_up_to_multiple 1000 MAX_ALIGN ∧
    (arena_alloc arena_init 1000).1.blocks.length = arena_init.blocks.length + 1 ∧
    ((arena_alloc arena_init 1000).1.blocks.getD arena_init.blocks.length d0).size
      = round_up_to_multiple 1000 MAX_ALIGN ∧
    (arena_alloc arena_init 1000).1.block_seq ≠ arena_init.block_seq := by decide

/-- Claim C4 (amended): an allocation whose aligned size exceeds the
scheduled capacity and fits in no existing block creates exactly one new
block whose capacity is exactly the aligned request size; the growth-step
counter advances by one exactly when the scheduled capacity is still below
`BLOCKSIZE_MAX` (it is not left where it was, contrary to the original
claim; it stays only when the schedule has already reached the maximum). -/
theorem c4_oversized_request (a : Arena) (sz : Nat)
    (hnofit : ∀ b ∈ a.blocks,
      ¬ (round_up_to_multiple sz MAX_ALIGN + b.used ≤ b.size))
    (hover : BLOCKSIZE_MIN <<< (a.block_seq >>> 1)
      < round_up_to_multiple sz MAX_ALIGN) :
    (arena_alloc a sz).1.blocks.length = a.blocks.length + 1 ∧
    ((arena_alloc a sz).1.blocks.getD a.blocks.length d0).size
      = round_up_to_multiple sz MAX_ALIGN ∧
    (arena_alloc a sz).1.block_seq =
      (if BLOCKSIZE_MIN <<< (a.block_seq >>> 1) < BLOCKSIZE_MAX
        then a.block_seq + 1 else a.block_seq) := by
  have hscan : allocScan (round_up_to_multiple sz MAX_ALIGN) a.blocks = none :=
    (allocScan_eq_none_iff _ _).mpr hnofit
  rw [arena_alloc_scan_none a sz hscan]
  refine ⟨by simp, ?_, rfl⟩
  dsimp only
  rw [getD_concat_length]
  dsimp only
  rw [if_pos hover]

/-- Claim C4, witness: the amended oversized-request theorem evaluated on a
fresh arena with a 1000-byte request. -/
theorem c4_oversized_request_witness :
    (∀ b ∈ arena_init.blocks,
      ¬ (round_up_to_multiple 1000 MAX_ALIGN + b.used ≤ b.size)) ∧
    BLOCKSIZE_MIN <<< (arena_init.block_seq >>> 1)
      < round_up_to_multiple 1000 MAX_ALIGN ∧
    ((arena_alloc arena_init 1000).1.blocks.length = arena_init.blocks.length + 1 ∧
    ((arena_alloc arena_init 1000).1.blocks.getD arena_init.blocks.length d0).size
      = round_up_to_multiple 1000 MAX_ALIGN ∧
    (arena_alloc arena_init 1000).1.block_seq =
      (if BLOCKSIZE_MIN <<< (arena_init.block_seq >>> 1) < BLOCKSIZE_MAX
        then arena_init.block_seq + 1 else arena_init.block_seq)) :=
  ⟨by decide, by decide,
   c4_oversized_request arena_init 1000 (by decide) (by decide)⟩

/-- Claim C5 (confirmed): on every reachable arena state — any interleaving
of init, allocation, snapshot, rewind with a captured marker, reset, and
scratch enter/exit — every block of the chain satisfies `used ≤ capacity`. -/
theorem c5_capacity_invariant (a : Arena) (ms : List ArenaMarker) (h : Reach a ms) :
    ∀ b ∈ a.blocks, b.used ≤ b.size :=
  fun b hb => ((reach_inv a ms h).1.1 b hb).1

/-- Claim C5, witness: the capacity invariant evaluated on the block of the
arena reached by one 100-byte allocation. -/
theorem c5_capacity_invariant_witness :
    ArenaBlock.mk 512 112 ∈ (arena_alloc arena_init 100).1.blocks ∧
    (ArenaBlock.mk 512 112).used ≤ (ArenaBlock.mk 512 112).size :=
  ⟨by decide,
   c5_capacity_invariant _ [] (Reach.alloc arena_init [] 100 Reach.init) _ (by decide)⟩

/-- Claim C6 (confirmed): on every reachable arena state, the scheduled
capacity — the capacity the code gives a new non-oversized block — equals
`min(BLOCKSIZE_MIN << (block_seq / 2), BLOCKSIZE_MAX)`; in particular it
never exceeds `BLOCKSIZE_MAX`, the new non-oversized block created by an
allocation that fits no existing block has exactly that capacity, and once
the schedule has reached `BLOCKSIZE_MAX` no allocation ever changes
`block_seq` again. -/
theorem c6_growth_schedule_cap (a : Arena) (ms : List ArenaMarker) (sz : Nat)
    (h : Reach a ms)
    (hnofit : ∀ b ∈ a.blocks,
      ¬ (round_up_to_multiple sz MAX_ALIGN + b.used ≤ b.size))
    (hsmall : round_up_to_multiple sz MAX_ALIGN
      ≤ BLOCKSIZE_MIN <<< (a.block_seq >>> 1)) :
    BLOCKSIZE_MIN <<< (a.block_seq >>> 1)
      = min (BLOCKSIZE_MIN <<< (a.block_seq / 2)) BLOCKSIZE_MAX ∧
    BLOCKSIZE_MIN <<< (a.block_seq >>> 1) ≤ BLOCKSIZE_MAX ∧
    ((arena_alloc a sz).1.blocks.getD a.blocks.length d0).size
      = min (BLOCKSIZE_MIN <<< (a.block_seq / 2)) BLOCKSIZE_MAX ∧
    (BLOCKSIZE_MIN <<< (a.block_seq >>> 1) = BLOCKSIZE_MAX →
      ∀ sz2, (arena_alloc a sz2).1.block_seq = a.block_seq) := by
  have hseq : a.block_seq ≤ 22 := (reach_inv a ms h).1.2.2
  have hle : BLOCKSIZE_MIN <<< (a.block_seq >>> 1) ≤ BLOCKSIZE_MAX :=
    scheduled_le_max a.block_seq hseq
  have hsr : a.block_seq >>> 1 = a.block_seq / 2 := Nat.shiftRight_one _
  have hmin : min (BLOCKSIZE_MIN <<< (a.block_seq / 2)) BLOCKSIZE_MAX
      = BLOCKSIZE_MIN <<< (a.block_seq >>> 1) := by
    rw [← hsr]
    exact Nat.min_eq_left hle
  have hscan : allocScan (round_up_to_multiple sz MAX_ALIGN) a.blocks = none :=
    (allocScan_eq_none_iff _ _).mpr hnofit
  refine ⟨hmin.symm, hle, ?_, ?_⟩
  · rw [arena_alloc_scan_none a sz hscan]
    dsimp only
    rw [getD_concat_length]
    dsimp only
    rw [if_neg (by omega), hmin]
  · intro hpin sz2
    rcases hscan2 : allocScan (round_up_to_multiple sz2 MAX_ALIGN) a.blocks
      with - | ⟨l2, i, off⟩
    · rw [arena_alloc_scan_none a sz2 hscan2]
      dsimp only
      rw [if_neg (by omega)]
    · rw [arena_alloc_scan_some a sz2 l2 i off hscan2]

/-- Claim C6, witness: the schedule theorem evaluated on a fresh arena with
a 100-byte request (scheduled capacity 512 = min(512, 2^20)). -/
theorem c6_growth_schedule_cap_witness :
    Reach arena_init [] ∧
    (∀ b ∈ arena_init.blocks,
      ¬ (round_up_to_multiple 100 MAX_ALIGN + b.used ≤ b.size)) ∧
    round_up_to_multiple 100 MAX_ALIGN
      ≤ BLOCKSIZE_MIN <<< (arena_init.block_seq >>> 1) ∧
    (BLOCKSIZE_MIN <<< (arena_init.block_seq >>> 1)
      = min (BLOCKSIZE_MIN <<< (arena_init.block_seq / 2)) BLOCKSIZE_MAX ∧
    BLOCKSIZE_MIN <<< (arena_init.block_seq >>> 1) ≤ BLOCKSIZE_MAX ∧
    ((arena_alloc arena_init 100).1.blocks.getD arena_init.blocks.length d0).size
      = min (BLOCKSIZE_MIN <<< (arena_init.block_seq / 2)) BLOCKSIZE_MAX ∧
    (BLOCKSIZE_MIN <<< (arena_init.block_seq >>> 1) = BLOCKSIZE_MAX →
      ∀ sz2, (arena_alloc arena_init sz2).1.block_seq = arena_init.block_seq)) :=
  ⟨Reach.init, by decide, by decide,
   c6_growth_schedule_cap arena_init [] 100 Reach.init (by decide) (by decide)⟩

/-- Claim C7 (confirmed): with the default `BLOCKSIZE_MIN = 512` and
`BLOCKSIZE_MAX = 2^20`, on a fresh arena allocator the first allocation of
100 bytes creates exactly one block of capacity 512 (and is placed in it at
index 0); the next allocation of 300 bytes is placed in that same block
(block index 0, no new block); a further allocation of 300 bytes forces
exactly one second block, also of capacity 512. -/
theorem c7_growth_scenario :
    c7r1.1.arena.blocks.length = 1 ∧
    (c7r1.1.arena.blocks.getD 0 d0).size = 512 ∧
    c7r1.2.1 = 0 ∧
    c7r2.1.arena.blocks.length = 1 ∧
    c7r2.2.1 = 0 ∧
    c7r3.1.arena.blocks.length = 2 ∧
    c7r3.2.1 = 1 ∧
    (c7r3.1.arena.blocks.getD 1 d0).size = 512 := by decide

/-- Claim C8: the facade's arena realloc does *not* return its input
pointer.  `allocator_arena_realloc` in `src/alloc.h` has no return statement
(undefined return value, modelled as `none`), unlike `arena_realloc` in
`src/allocators/arena.h`, which does return `p` — evaluated here at a fresh
arena allocator and pointer 16. -/
theorem c8_realloc_missing_return :
    (allocator_arena_realloc allocator_arena_init 16).2 = none ∧
    (allocator_arena_realloc allocator_arena_init 16).1 = allocator_arena_init ∧
    ¬ ((allocator_arena_realloc allocator_arena_init 16).2 = some 16) ∧
    arena_realloc arena_init 16 = (arena_init, 16) := by decide

/-- Claim C9: the stats bound `used ≤ reserved` is violated by the facade.
Allocate 512 bytes from a fresh arena allocator (`used = 512`,
`reserved = 536`), reset the arena through the facade (stats untouched, block
cursor cleared), and allocate 512 bytes again: the allocation recycles the
existing block, so `reserved` stays 536 while `used` reaches 1024. -/
theorem c9_stats_bound_violated :
    c9s3.stats.used = 1024 ∧
    c9s3.stats.reserved = 536 ∧
    ¬ c9s3.stats.used ≤ c9s3.stats.reserved := by decide

/-- Claim C10 (confirmed): on every reachable arena state, every block's
`used` counter is a multiple of `MAX_ALIGN`, and the offset of the pointer
returned by any allocation performed on the state is a multiple of
`MAX_ALIGN`. -/
theorem c10_alignment_invariant (a : Arena) (ms : List ArenaMarker) (h : Reach a ms) :
    (∀ b ∈ a.blocks, MAX_ALIGN ∣ b.used) ∧
    ∀ sz, MAX_ALIGN ∣ (arena_alloc a sz).2.2 := by
  have hga := (reach_inv a ms h).1
  refine ⟨fun b hb => (hga.1 b hb).2, ?_⟩
  intro sz
  rcases hscan : allocScan (round_up_to_multiple sz MAX_ALIGN) a.blocks
    with - | ⟨l2, i, off⟩
  · rw [arena_alloc_scan_none a sz hscan]
    simp
  · rw [arena_alloc_scan_some a sz l2 i off hscan]
    obtain ⟨hi, hoff, -, -⟩ := allocScan_found _ _ _ _ _ hscan
    dsimp only
    rw [hoff]
    have hmem : a.blocks.getD i d0 ∈ a.blocks := by
      rw [getD_eq_getElem _ _ hi]
      exact List.getElem_mem hi
    exact (hga.1 _ hmem).2

/-- Claim C10, witness: the alignment invariant evaluated on the arena
reached by one 100-byte allocation, and on the offset returned by a further
300-byte allocation (112, a multiple of 16). -/
theorem c10_alignment_invariant_witness :
    ArenaBlock.mk 512 112 ∈ (arena_alloc arena_init 100).1.blocks ∧
    MAX_ALIGN ∣ (ArenaBlock.mk 512 112).used ∧
    MAX_ALIGN ∣ (arena_alloc (arena_alloc arena_init 100).1 300).2.2 :=
  ⟨by decide,
   (c10_alignment_invariant _ [] (Reach.alloc arena_init [] 100 Reach.init)).1
     _ (by decide),
   (c10_alignment_invariant _ [] (Reach.alloc arena_init [] 100 Reach.init)).2 300⟩

end AllocH
